import Mathlib

/-!
Verification of the implicit parameter-binding preprocessor of the
`jinja2sql` repository (`src/jinja2sql/_core.py`, with the `src/jinjaq/core.py`
variant for the dialect-dependent `params` property).

The embedding translates the render-scoped parameter binder
(`RenderContext.bind_param`), the placeholder dialect encoder
(`Jinja2SQL._bind_param`), the default filters (`_bind_filter`,
`_bind_in_clause_filter`, `_identifier_filter`), and the token-stream
rewriter (`Jinja2SQLExtension.filter_stream` / `_extract_param_name`).
Python dicts are modelled as insertion-ordered association lists with
update-in-place semantics; machine strings are Lean `String`s; fallible
code returns `Except`.
-/

namespace Jinja2SQL

/-- A single quote character (ASCII 39), used to reproduce the exact error
message text of `bind_param`. -/
def sq : String := String.singleton (Char.ofNat 39)

/-- Runtime values flowing through the template engine.  `vMarkup` models
`markupsafe.Markup` (safe strings, e.g. the output of the identifier
filter); `vUndefined` models the jinja2 `Undefined` sentinel for missing
template variables. -/
inductive Value where
  | vStr (s : String)
  | vInt (n : Int)
  | vBool (b : Bool)
  | vList (items : List Value)
  | vMarkup (s : String)
  | vUndefined
  deriving Repr

/-- Models `jinja2.is_undefined(value)`. -/
def Value.isUndefined : Value → Bool
  | .vUndefined => true
  | _ => false

/-- The `ParamStyle` union of `_core.py`: one of the six literal dialect
names, or a caller-supplied `ParamStyleFunc` taking `(param_key, param_index)`. -/
inductive ParamStyle where
  | named
  | qmark
  | format
  | numeric
  | pyformat
  | asyncpg
  | custom (f : String → Nat → String)

/-- Lookup in an insertion-ordered Python dict, `d[k]` as an `Option`. -/
def dictGet? {α : Type} (d : List (String × α)) (k : String) : Option α :=
  (d.find? (fun p => p.1 = k)).map (fun p => p.2)

/-- Python dict assignment `d[k] = v`: overwrite in place when the key is
present (insertion order preserved), append otherwise. -/
def dictSet {α : Type} (d : List (String × α)) (k : String) (v : α) :
    List (String × α) :=
  if d.any (fun p => p.1 = k) then
    d.map (fun p => if p.1 = k then (k, v) else p)
  else d ++ [(k, v)]

/-- Lookup in a `defaultdict(lambda: 0)`: missing keys read as `0`. -/
def ddGet (d : List (String × Nat)) (k : String) : Nat :=
  (dictGet? d k).getD 0

/-- Assignment into the `defaultdict` counter map. -/
def ddSet (d : List (String × Nat)) (k : String) (n : Nat) :
    List (String × Nat) :=
  dictSet d k n

/-- Models `name.replace('.', '__')`: every dot becomes two underscores. -/
def pyReplaceDot (s : String) : String :=
  String.mk (s.data.foldr
    (fun c acc => if c = Char.ofNat 46 then Char.ofNat 95 :: Char.ofNat 95 :: acc else c :: acc)
    [])

/-- The render-scoped binder state, `RenderContext.__slots__` of `_core.py`:
`_params` is the insertion-ordered `bound_values` dict, `_param_index` the
global bind counter, `_param_indexes` the per-name occurrence counters. -/
structure RenderContext where
  paramStyle : ParamStyle
  identifierQuoteChar : String
  params : List (String × Value)
  paramIndex : Nat
  paramIndexes : List (String × Nat)

/-- `RenderContext.__init__`: empty dict, counter 0, empty per-name counters. -/
def initialContext (style : ParamStyle) (q : String) : RenderContext :=
  { paramStyle := style, identifierQuoteChar := q,
    params := [], paramIndex := 0, paramIndexes := [] }

/-- `RenderContext.bind_param` of `_core.py`: reject the undefined sentinel
with an error naming the parameter; otherwise increment `_param_index` and
the per-name counter, build `param_key` from the dot-replaced name (plus the
`_<occurrence>` suffix in the IN-clause case), store the value, and return
`(param_key, param_index)`. -/
def RenderContext.bindParam (ctx : RenderContext) (name : String) (value : Value)
    (isInClause : Bool) : Except String (RenderContext × String × Nat) :=
  if value.isUndefined then
    Except.error ("Undefined parameter " ++ sq ++ name ++ sq ++ " used in query.")
  else
    let paramIndex := ctx.paramIndex + 1
    let occ := ddGet ctx.paramIndexes name + 1
    let suffix := if isInClause then "_" ++ Nat.repr occ else ""
    let paramKey := pyReplaceDot name ++ suffix
    Except.ok
      ({ ctx with
          params := dictSet ctx.params paramKey value,
          paramIndex := paramIndex,
          paramIndexes := ddSet ctx.paramIndexes name occ },
        paramKey, paramIndex)

/-- The placeholder dialect table of `Jinja2SQL._bind_param`: a callable
style is applied to `(param_key, param_index)`; otherwise the six literal
shapes.  (The inductive is exhaustive, so the `ValueError` branch for an
unknown name has no counterpart.) -/
def renderPlaceholder (style : ParamStyle) (paramKey : String) (paramIndex : Nat) :
    String :=
  match style with
  | .custom f => f paramKey paramIndex
  | .named => ":" ++ paramKey
  | .qmark => "?"
  | .format => "%s"
  | .numeric => ":" ++ Nat.repr paramIndex
  | .pyformat => "%(" ++ paramKey ++ ")s"
  | .asyncpg => "$" ++ Nat.repr paramIndex

/-- `Jinja2SQL._bind_param`: bind through the render context, then render
the placeholder text for the active dialect. -/
def bindParamText (ctx : RenderContext) (key : String) (value : Value)
    (isInClause : Bool) : Except String (RenderContext × String) :=
  match ctx.bindParam key value isInClause with
  | Except.error e => Except.error e
  | Except.ok (ctx2, paramKey, paramIndex) =>
      Except.ok (ctx2, renderPlaceholder ctx2.paramStyle paramKey paramIndex)

/-- `Jinja2SQL._bind_filter`: `Markup` values pass through untouched
(no binding at all); anything else is bound as a scalar and replaced by
its placeholder text. -/
def bindFilter (ctx : RenderContext) (value : Value) (name : String) :
    Except String (RenderContext × Value) :=
  match value with
  | .vMarkup s => Except.ok (ctx, .vMarkup s)
  | v =>
    match bindParamText ctx name v false with
    | Except.error e => Except.error e
    | Except.ok (ctx2, s) => Except.ok (ctx2, .vStr s)

/-- The element loop of `Jinja2SQL._bind_in_clause_filter`: one
`_bind_param(name, item, is_in_clause=True)` call per element, in order.
The loop records for each element the `(param_key, param_index,
placeholder_text)` triple produced by that call; the filter itself uses
only the text component, the other two are the call's observable
bookkeeping. -/
def bindInClauseLoop (name : String) :
    RenderContext → List Value →
      Except String (RenderContext × List (String × Nat × String))
  | ctx, [] => Except.ok (ctx, [])
  | ctx, v :: rest =>
    match ctx.bindParam name v true with
    | Except.error e => Except.error e
    | Except.ok (ctx2, paramKey, paramIndex) =>
      match bindInClauseLoop name ctx2 rest with
      | Except.error e => Except.error e
      | Except.ok (ctx3, ps) =>
          Except.ok (ctx3,
            (paramKey, paramIndex, renderPlaceholder ctx2.paramStyle paramKey paramIndex) :: ps)

/-- `Jinja2SQL._bind_in_clause_filter`: bind each element, then return the
parenthesized comma-joined group of the element placeholders. -/
def bindInClauseFilter (ctx : RenderContext) (value : List Value) (name : String) :
    Except String (RenderContext × String) :=
  match bindInClauseLoop name ctx value with
  | Except.error e => Except.error e
  | Except.ok (ctx2, ps) =>
      Except.ok (ctx2, "(" ++ String.intercalate ", " (ps.map (fun p => p.2.2)) ++ ")")

/-- The shape of the parameter collection handed back to the caller. -/
inductive ParamsResult where
  | seq (values : List Value)
  | map (entries : List (String × Value))

/-- Membership test of `param_style in ("qmark", "format", "numeric", "asyncpg")`. -/
def isPositionalStyle : ParamStyle → Bool
  | .qmark => true
  | .format => true
  | .numeric => true
  | .asyncpg => true
  | _ => false

/-- The `RenderContext.params` property of `jinjaq/core.py`: positional
dialects get `tuple(self._params.values())` (the bound values in insertion
order), keyword dialects get the `bound_values` mapping itself.  (The
`jinja2sql/_core.py` variant wraps the same dict in a `Params` view that
serves both accesses.) -/
def RenderContext.paramsResult (ctx : RenderContext) : ParamsResult :=
  if isPositionalStyle ctx.paramStyle then
    ParamsResult.seq (ctx.params.map (fun p => p.2))
  else
    ParamsResult.map ctx.params

/-- One bind operation performed by the engine while evaluating the
rewritten template: a scalar `|bind` site or a `|inclause` list site. -/
inductive BindOp where
  | scalar (name : String) (value : Value)
  | inClause (name : String) (values : List Value)

/-- The external engine's render pass over the scalar interpolation sites of
a template, in textual order: each site invokes the implicit bind filter;
the first error aborts the whole render. -/
def runBinds :
    RenderContext → List (String × Value) → Except String (RenderContext × List String)
  | ctx, [] => Except.ok (ctx, [])
  | ctx, (n, v) :: rest =>
    match bindParamText ctx n v false with
    | Except.error e => Except.error e
    | Except.ok (ctx2, s) =>
      match runBinds ctx2 rest with
      | Except.error e => Except.error e
      | Except.ok (ctx3, ss) => Except.ok (ctx3, s :: ss)

/-- Models `Jinja2SQL.from_string`: a fresh `RenderContext` per render; on
success the caller receives the substituted placeholder texts and the
parameter collection; on failure neither is produced. -/
def render (style : ParamStyle) (qc : String) (ops : List (String × Value)) :
    Except String (List String × ParamsResult) :=
  match runBinds (initialContext style qc) ops with
  | Except.error e => Except.error e
  | Except.ok (ctx, texts) => Except.ok (texts, ctx.paramsResult)

/-- Number of `bind_param` calls an operation performs: one per scalar
bind, one per element of a list bind. -/
def BindOp.elemCount : BindOp → Nat
  | .scalar _ _ => 1
  | .inClause _ vs => vs.length

/-- Total number of `bind_param` calls a render performs. -/
def opCount (ops : List BindOp) : Nat := (ops.map BindOp.elemCount).sum

/-- True when no value of the operation is the undefined sentinel. -/
def BindOp.defined : BindOp → Bool
  | .scalar _ v => !v.isUndefined
  | .inClause _ vs => vs.all (fun v => !v.isUndefined)

/-- The sequence of `param_index` values handed back by the successive
`bind_param` calls a render performs for the given operations, in template
order: one call per scalar site, one per element of each list site. -/
def runBindIndexes :
    RenderContext → List BindOp → Except String (RenderContext × List Nat)
  | ctx, [] => Except.ok (ctx, [])
  | ctx, .scalar n v :: rest =>
    match ctx.bindParam n v false with
    | Except.error e => Except.error e
    | Except.ok (ctx2, _, idx) =>
      match runBindIndexes ctx2 rest with
      | Except.error e => Except.error e
      | Except.ok (ctx3, idxs) => Except.ok (ctx3, idx :: idxs)
  | ctx, .inClause n vs :: rest =>
    match bindInClauseLoop n ctx vs with
    | Except.error e => Except.error e
    | Except.ok (ctx2, ps) =>
      match runBindIndexes ctx2 rest with
      | Except.error e => Except.error e
      | Except.ok (ctx3, idxs) => Except.ok (ctx3, ps.map (fun p => p.2.1) ++ idxs)

/-- Models CPython `s.replace(pat, rep)` on character lists for a nonempty
pattern: leftmost non-overlapping occurrences of `pat` are replaced by
`rep`.  (The empty-pattern guard makes the recursion total; the source only
calls this through `pyReplace`, which handles the empty pattern.) -/
def pyReplaceAux (pat rep : List Char) : List Char → List Char
  | [] => []
  | c :: rest =>
    if pat ≠ [] ∧ pat.isPrefixOf (c :: rest) then
      rep ++ pyReplaceAux pat rep (rest.drop (pat.length - 1))
    else c :: pyReplaceAux pat rep rest
termination_by l => l.length
decreasing_by
  · simp only [List.length_drop, List.length_cons]
    omega
  · simp only [List.length_cons]
    omega

/-- Models `s.replace(pat, rep)` for the calls the source makes: with the
empty pattern the source always passes the empty replacement as well, for
which CPython returns `s` unchanged. -/
def pyReplace (pat rep s : String) : String :=
  if pat = "" then s else String.mk (pyReplaceAux pat.data rep.data s.data)

/-- The inner `_quote_and_escape` of `Jinja2SQL._identifier_filter`: wrap
`item` in the configured quote character, doubling every embedded
occurrence of it (`item.replace(q, q * 2)`). -/
def quoteAndEscape (q : String) (item : String) : String :=
  q ++ pyReplace q (q ++ q) item ++ q

/-- Extract the underlying strings of a list of values; `none` as soon as
one element is not a string (in Python that element's missing `.replace`
raises). -/
def strListOf : List Value → Option (List String)
  | [] => some []
  | .vStr s :: rest => (strListOf rest).map (fun ss => s :: ss)
  | _ => none

/-- `Jinja2SQL._identifier_filter`: a single string is treated as the
one-element tuple `(value,)`; a sequence has each segment quote-escaped and
the segments joined with `.`; the result is `Markup`.  Non-string,
non-iterable input raises `ValueError`; a non-string element inside a
sequence raises (missing `.replace`). -/
def identifierFilter (ctx : RenderContext) (value : Value) : Except String Value :=
  match value with
  | .vStr s => Except.ok (.vMarkup (quoteAndEscape ctx.identifierQuoteChar s))
  | .vMarkup s => Except.ok (.vMarkup (quoteAndEscape ctx.identifierQuoteChar s))
  | .vList items =>
    match strListOf items with
    | some segs =>
        Except.ok (.vMarkup (String.intercalate "."
          (segs.map (quoteAndEscape ctx.identifierQuoteChar))))
    | none => Except.error "str expected as identifier segment"
  | _ => Except.error "identifier filter expects a string or an Iterable"

/-- A lexical token of the host engine: line number, kind tag, value
payload (`jinja2.lexer.Token`). -/
structure Token where
  lineno : Nat
  kind : String
  value : String
  deriving Repr, DecidableEq

/-- `Jinja2SQLExtension.skip_filters`: the exemption set. -/
def skipFilters : List String := ["bind", "_bind_in", "safe"]

/-- Placeholder for `var_expr[-1]` on an empty buffer; never reached, since
the buffer always starts with the interpolation-begin token. -/
def dummyToken : Token := { lineno := 0, kind := "", value := "" }

/-- `Jinja2SQLExtension._extract_param_name`, inner loop: skip the
interpolation-begin token, concatenate the values of name and dot tokens,
stop at the first token of any other kind. -/
def extractLoop (acc : String) : List Token → String
  | [] => acc
  | t :: rest =>
    if t.kind = "variable_begin" then extractLoop acc rest
    else if t.kind = "name" then extractLoop (acc ++ t.value) rest
    else if t.kind = "dot" then extractLoop (acc ++ t.value) rest
    else acc

/-- `Jinja2SQLExtension._extract_param_name`: the concatenated leading
name/dot run, with the fallback `"bind_0"` when that string is empty. -/
def extractParamName (tokens : List Token) : String :=
  let name := extractLoop "" tokens
  if name = "" then "bind_0" else name

/-- One rewrite step of `filter_stream` on a buffered interpolation
`var_expr` (beginning with the interpolation-begin token) and its closing
token `ve`: if the last buffered token is a name in the exemption set, the
site is emitted unchanged; otherwise the expression is parenthesized and
piped into `bind` (or `_bind_in` after an `inclause` marker) with the
extracted parameter name as a string literal argument. -/
def rewriteVarExpr (varExpr : List Token) (ve : Token) : List Token :=
  let last := varExpr.getLastD dummyToken
  if last.kind = "name" ∧ last.value ∈ skipFilters then
    varExpr ++ [ve]
  else
    let filterName := if last.value = "inclause" then "_bind_in" else "bind"
    let paramName := extractParamName varExpr
    let lineno := last.lineno
    varExpr.take 1 ++ [{ lineno := lineno, kind := "lparen", value := "(" }] ++
      varExpr.drop 1 ++
      [{ lineno := lineno, kind := "rparen", value := ")" },
       { lineno := lineno, kind := "pipe", value := "|" },
       { lineno := lineno, kind := "name", value := filterName },
       { lineno := lineno, kind := "lparen", value := "(" },
       { lineno := lineno, kind := "string", value := paramName },
       { lineno := lineno, kind := "rparen", value := ")" },
       ve]

/-- Split off the buffered expression: the tokens before the first
interpolation-end token, that token, and the remainder. -/
def splitAtVarEnd : List Token → Option (List Token × Token × List Token)
  | [] => none
  | t :: rest =>
    if t.kind = "variable_end" then some ([], t, rest)
    else
      match splitAtVarEnd rest with
      | none => none
      | some (buf, ve, rest2) => some (t :: buf, ve, rest2)

/-- `Jinja2SQLExtension.filter_stream`: copy tokens until an
interpolation-begin token; buffer the site up to its interpolation-end
token and emit the (possibly rewritten) site; resume.  An unterminated
site is the underlying lexer's structural error, modelled here as emitting
the remaining stream unchanged. -/
def filterStream : List Token → List Token
  | [] => []
  | t :: rest =>
    if t.kind = "variable_begin" then
      match h : splitAtVarEnd rest with
      | none => t :: rest
      | some (expr, ve, rest2) =>
          rewriteVarExpr (t :: expr) ve ++ filterStream rest2
    else t :: filterStream rest
termination_by l => l.length
decreasing_by
  · have hlen : ∀ (l e : List Token) (v : Token) (r : List Token),
        splitAtVarEnd l = some (e, v, r) → r.length < l.length := by
      intro l
      induction l with
      | nil => intro e v r hh; simp [splitAtVarEnd] at hh
      | cons a as ih =>
        intro e v r hh
        simp only [splitAtVarEnd] at hh
        by_cases hk : a.kind = "variable_end"
        · simp [hk] at hh
          simp [← hh.2.2, List.length_cons]
        · simp [hk] at hh
          cases hs : splitAtVarEnd as with
          | none => rw [hs] at hh; simp at hh
          | some x =>
            obtain ⟨b, v2, r2⟩ := x
            rw [hs] at hh
            simp at hh
            have := ih b v2 r2 hs
            simp [← hh.2.2]
            omega
    have := hlen rest expr ve rest2 h
    simp only [List.length_cons]
    omega
  · simp only [List.length_cons]
    omega

/-- The `param_key` computed by a `bind_param` call on state `ctx`. -/
def bindKey (ctx : RenderContext) (name : String) (isInClause : Bool) : String :=
  pyReplaceDot name ++
    (if isInClause then "_" ++ Nat.repr (ddGet ctx.paramIndexes name + 1) else "")

/-- The numeric value of a decimal digit character. -/
def decDigit (c : Char) : Nat := c.toNat - 48

/-- Decode a decimal digit string back to a natural number. -/
def decValue (l : List Char) : Nat := l.foldl (fun acc c => acc * 10 + decDigit c) 0

/-- Concatenated values of the leading run of name and dot tokens of a
buffered expression: the walk §4.1 step 5 of the spec describes. -/
def leadRun (rest : List Token) : String :=
  List.foldl (fun a t => a ++ t.value) ""
    (rest.takeWhile (fun t => t.kind = "name" ∨ t.kind = "dot"))

/-! ### Dictionary lemmas -/

theorem find?_map_overwrite {α : Type} (k : String) (v : α) :
    ∀ d : List (String × α), d.any (fun p => p.1 = k) = true →
      (d.map (fun p => if p.1 = k then (k, v) else p)).find? (fun p => p.1 = k) =
        some (k, v) := by
  intro d
  induction d with
  | nil => intro h; simp at h
  | cons p rest ih =>
    intro h
    by_cases hp : p.1 = k
    · simp [hp, List.find?]
    · have hrest : rest.any (fun q => q.1 = k) = true := by
        simp [List.any_cons, hp] at h
        simpa using h
      simp [hp, List.find?, ih hrest]

theorem find?_append_absent {α : Type} (k : String) (v : α) :
    ∀ d : List (String × α), d.any (fun p => p.1 = k) = false →
      (d ++ [(k, v)]).find? (fun p => p.1 = k) = some (k, v) := by
  intro d
  induction d with
  | nil => intro _; simp [List.find?]
  | cons p rest ih =>
    intro h
    simp only [List.any_cons, Bool.or_eq_false_iff] at h
    have hp : (p.1 = k) = False := by
      simpa using h.1
    simp [List.find?, hp, ih h.2]

theorem dictGet?_dictSet_self {α : Type} (d : List (String × α)) (k : String) (v : α) :
    dictGet? (dictSet d k v) k = some v := by
  by_cases h : d.any (fun p => p.1 = k)
  · simp [dictGet?, dictSet, h, find?_map_overwrite k v d h]
  · simp only [Bool.not_eq_true] at h
    simp [dictGet?, dictSet, h, find?_append_absent k v d h]

theorem dictSet_keys_of_mem {α : Type} (d : List (String × α)) (k : String) (v : α)
    (h : d.any (fun p => p.1 = k) = true) :
    (dictSet d k v).map Prod.fst = d.map Prod.fst := by
  simp only [dictSet, h, if_true, List.map_map]
  apply List.map_congr_left
  intro p _
  by_cases hp : p.1 = k <;> simp [hp]

theorem dictSet_keys_of_absent {α : Type} (d : List (String × α)) (k : String) (v : α)
    (h : d.any (fun p => p.1 = k) = false) :
    (dictSet d k v).map Prod.fst = d.map Prod.fst ++ [k] := by
  simp [dictSet, h]

theorem any_key_eq_mem {α : Type} (d : List (String × α)) (k : String) :
    d.any (fun p => p.1 = k) = true ↔ k ∈ d.map Prod.fst := by
  simp only [List.any_eq_true, decide_eq_true_eq, List.mem_map]

theorem dictSet_key_mem {α : Type} (d : List (String × α)) (k : String) (v : α) :
    k ∈ (dictSet d k v).map Prod.fst := by
  by_cases h : d.any (fun p => p.1 = k)
  · rw [dictSet_keys_of_mem d k v h]
    exact (any_key_eq_mem d k).1 h
  · simp only [Bool.not_eq_true] at h
    rw [dictSet_keys_of_absent d k v h]
    simp

theorem dictSet_keys_nodup {α : Type} (d : List (String × α)) (k : String) (v : α)
    (h : (d.map Prod.fst).Nodup) : ((dictSet d k v).map Prod.fst).Nodup := by
  by_cases ha : d.any (fun p => p.1 = k)
  · rw [dictSet_keys_of_mem d k v ha]; exact h
  · simp only [Bool.not_eq_true] at ha
    rw [dictSet_keys_of_absent d k v ha]
    have hk : k ∉ d.map Prod.fst := by
      intro hmem
      rw [← any_key_eq_mem d k] at hmem
      rw [ha] at hmem
      exact Bool.false_ne_true hmem
    simp [List.nodup_append, h, hk]

theorem dictSet_key_count_one {α : Type} (d : List (String × α)) (k : String) (v : α)
    (h : (d.map Prod.fst).Nodup) : ((dictSet d k v).map Prod.fst).count k = 1 :=
  List.count_eq_one_of_mem (dictSet_keys_nodup d k v h) (dictSet_key_mem d k v)

/-! ### `bind_param` characterization -/

theorem bindParam_ok (ctx : RenderContext) (name : String) (v : Value) (isIn : Bool)
    (h : v.isUndefined = false) :
    ctx.bindParam name v isIn =
      Except.ok
        ({ ctx with
            params := dictSet ctx.params (bindKey ctx name isIn) v,
            paramIndex := ctx.paramIndex + 1,
            paramIndexes := ddSet ctx.paramIndexes name (ddGet ctx.paramIndexes name + 1) },
          bindKey ctx name isIn, ctx.paramIndex + 1) := by
  simp [RenderContext.bindParam, h, bindKey]

theorem bindParam_undefined (ctx : RenderContext) (name : String) (isIn : Bool) :
    ctx.bindParam name Value.vUndefined isIn =
      Except.error ("Undefined parameter " ++ sq ++ name ++ sq ++ " used in query.") := by
  simp [RenderContext.bindParam, Value.isUndefined]

theorem ddGet_ddSet_self (d : List (String × Nat)) (k : String) (n : Nat) :
    ddGet (ddSet d k n) k = n := by
  simp [ddGet, ddSet, dictGet?_dictSet_self]

/-! ### Injectivity of the decimal numeral suffixes -/

theorem decValue_append (l : List Char) (c : Char) :
    decValue (l ++ [c]) = decValue l * 10 + decDigit c := by
  simp [decValue, List.foldl_append]

theorem decDigit_digitChar (d : Nat) (h : d < 10) :
    decDigit (Nat.digitChar d) = d := by
  interval_cases d <;> rfl

theorem toDigitsCore_shift (fuel : Nat) :
    ∀ (n : Nat) (ds : List Char),
      Nat.toDigitsCore 10 fuel n ds = Nat.toDigitsCore 10 fuel n [] ++ ds := by
  induction fuel with
  | zero => intro n ds; simp [Nat.toDigitsCore]
  | succ f ih =>
    intro n ds
    simp only [Nat.toDigitsCore]
    by_cases h : n / 10 = 0
    · simp [h]
    · simp only [h, if_false]
      rw [ih (n / 10) [Nat.digitChar (n % 10)], ih (n / 10) (Nat.digitChar (n % 10) :: ds)]
      simp

theorem decValue_toDigitsCore (fuel : Nat) :
    ∀ n : Nat, n < 10 ^ fuel →
      decValue (Nat.toDigitsCore 10 fuel n []) = n := by
  induction fuel with
  | zero =>
    intro n h
    simp only [pow_zero, Nat.lt_one_iff] at h
    subst h
    simp [Nat.toDigitsCore, decValue]
  | succ f ih =>
    intro n h
    simp only [Nat.toDigitsCore]
    by_cases h0 : n / 10 = 0
    · have hn : n < 10 := by omega
      simp only [h0, if_true]
      have : decValue [Nat.digitChar (n % 10)] = decDigit (Nat.digitChar (n % 10)) := by
        simp [decValue]
      rw [this, decDigit_digitChar (n % 10) (Nat.mod_lt n (by norm_num)), Nat.mod_eq_of_lt hn]
    · simp only [h0, if_false]
      rw [toDigitsCore_shift f (n / 10) [Nat.digitChar (n % 10)], decValue_append]
      have hdiv : n / 10 < 10 ^ f := by
        rw [Nat.div_lt_iff_lt_mul (by norm_num : 0 < 10)]
        calc n < 10 ^ (f + 1) := h
          _ = 10 ^ f * 10 := by rw [pow_succ]
      rw [ih (n / 10) hdiv, decDigit_digitChar (n % 10) (Nat.mod_lt n (by norm_num))]
      omega

theorem lt_ten_pow_succ (n : Nat) : n < 10 ^ (n + 1) := by
  calc n < 2 ^ n := Nat.lt_two_pow n
    _ ≤ 10 ^ n := Nat.pow_le_pow_left (by norm_num) n
    _ ≤ 10 ^ (n + 1) := Nat.pow_le_pow_right (by norm_num) (Nat.le_succ n)

theorem decValue_toDigits (n : Nat) : decValue (Nat.toDigits 10 n) = n :=
  decValue_toDigitsCore (n + 1) n (lt_ten_pow_succ n)

theorem natRepr_injective : Function.Injective Nat.repr := by
  intro m n h
  have hd : Nat.toDigits 10 m = Nat.toDigits 10 n := congrArg String.data h
  calc m = decValue (Nat.toDigits 10 m) := (decValue_toDigits m).symm
    _ = decValue (Nat.toDigits 10 n) := by rw [hd]
    _ = n := decValue_toDigits n

theorem string_append_left_cancel (a b c : String) (h : a ++ b = a ++ c) : b = c := by
  have : (a ++ b).data = (a ++ c).data := congrArg String.data h
  simp only [String.data_append] at this
  exact congrArg String.mk (List.append_cancel_left this)

theorem numbered_key_injective (base : String) :
    Function.Injective (fun i : Nat => base ++ "_" ++ Nat.repr i) := by
  intro i j h
  have h2 : Nat.repr i = Nat.repr j := by
    have : (base ++ "_") ++ Nat.repr i = (base ++ "_") ++ Nat.repr j := by
      simpa [String.append_assoc] using h
    exact string_append_left_cancel (base ++ "_") _ _ this
  exact natRepr_injective h2

/-! ### Loop characterizations -/

theorem bindInClauseLoop_spec (name : String) :
    ∀ (vs : List Value) (ctx : RenderContext),
      vs.all (fun v => !v.isUndefined) = true →
      ∃ ctx2 ps, bindInClauseLoop name ctx vs = Except.ok (ctx2, ps) ∧
        ps.map (fun p => p.1) =
          (List.range' (ddGet ctx.paramIndexes name + 1) vs.length).map
            (fun i => pyReplaceDot name ++ "_" ++ Nat.repr i) ∧
        ps.map (fun p => p.2.1) = List.range' (ctx.paramIndex + 1) vs.length ∧
        ps.map (fun p => p.2.2) =
          ps.map (fun p => renderPlaceholder ctx.paramStyle p.1 p.2.1) ∧
        ctx2.paramIndex = ctx.paramIndex + vs.length ∧
        ddGet ctx2.paramIndexes name = ddGet ctx.paramIndexes name + vs.length ∧
        ctx2.paramStyle = ctx.paramStyle := by
  intro vs
  induction vs with
  | nil =>
    intro ctx _
    exact ⟨ctx, [], rfl, by simp, by simp, rfl, by simp, by simp, rfl⟩
  | cons v rest ih =>
    intro ctx hall
    simp only [List.all_cons, Bool.and_eq_true, Bool.not_eq_true'] at hall
    obtain ⟨hv, hrest⟩ := hall
    have hstep := bindParam_ok ctx name v true hv
    set ctx1 : RenderContext :=
      { ctx with
          params := dictSet ctx.params (bindKey ctx name true) v,
          paramIndex := ctx.paramIndex + 1,
          paramIndexes := ddSet ctx.paramIndexes name (ddGet ctx.paramIndexes name + 1) }
      with hctx1
    have hall' : rest.all (fun v => !v.isUndefined) = true := by
      simp [List.all_eq_true] at hrest ⊢
      intro x hx
      exact hrest x hx
    obtain ⟨ctx2, ps, hloop, hkeys, hidxs, htexts, hpi, hdd, hstyle⟩ := ih ctx1 hall'
    have hdd1 : ddGet ctx1.paramIndexes name = ddGet ctx.paramIndexes name + 1 := by
      simp [hctx1, ddGet_ddSet_self]
    have hpi1 : ctx1.paramIndex = ctx.paramIndex + 1 := rfl
    have hstyle1 : ctx1.paramStyle = ctx.paramStyle := rfl
    refine ⟨ctx2, (bindKey ctx name true, ctx.paramIndex + 1,
      renderPlaceholder ctx1.paramStyle (bindKey ctx name true) (ctx.paramIndex + 1)) :: ps,
      ?_, ?_, ?_, ?_, ?_, ?_, ?_⟩
    · simp only [bindInClauseLoop, hstep, hloop]
    · simp only [List.map_cons, List.length_cons, List.range'_succ, hkeys, hdd1]
      congr 1
      simp [bindKey, String.append_assoc]
    · simp only [List.map_cons, List.length_cons, List.range'_succ, hidxs, hpi1]
    · simp only [List.map_cons, htexts, hstyle1]
    · simp only [hpi, hpi1, List.length_cons]
      omega
    · simp only [hdd, hdd1, List.length_cons]
      omega
    · rw [hstyle, hstyle1]

theorem runBindIndexes_spec :
    ∀ (ops : List BindOp) (ctx : RenderContext),
      ops.all BindOp.defined = true →
      ∃ ctx2, runBindIndexes ctx ops =
          Except.ok (ctx2, List.range' (ctx.paramIndex + 1) (opCount ops)) ∧
        ctx2.paramIndex = ctx.paramIndex + opCount ops := by
  intro ops
  induction ops with
  | nil =>
    intro ctx _
    exact ⟨ctx, by simp [runBindIndexes, opCount], by simp [opCount]⟩
  | cons op rest ih =>
    intro ctx hall
    simp only [List.all_cons, Bool.and_eq_true] at hall
    obtain ⟨hop, hrest⟩ := hall
    match op with
    | BindOp.scalar n v =>
      have hv : v.isUndefined = false := by
        simpa [BindOp.defined] using hop
      have hstep := bindParam_ok ctx n v false hv
      set ctx1 : RenderContext :=
        { ctx with
            params := dictSet ctx.params (bindKey ctx n false) v,
            paramIndex := ctx.paramIndex + 1,
            paramIndexes := ddSet ctx.paramIndexes n (ddGet ctx.paramIndexes n + 1) }
        with hctx1
      obtain ⟨ctx2, hrun, hpi⟩ := ih ctx1 hrest
      refine ⟨ctx2, ?_, ?_⟩
      · have hcount : opCount (BindOp.scalar n v :: rest) = opCount rest + 1 := by
          simp [opCount, BindOp.elemCount]
          omega
        rw [hcount]
        simp only [runBindIndexes, hstep, hrun]
        rw [List.range'_succ]
      · have hcount : opCount (BindOp.scalar n v :: rest) = opCount rest + 1 := by
          simp [opCount, BindOp.elemCount]
          omega
        rw [hcount, hpi]
        simp only [hctx1]
        omega
    | BindOp.inClause n vs =>
      have hvs : vs.all (fun v => !v.isUndefined) = true := by
        simpa [BindOp.defined] using hop
      obtain ⟨ctx1, ps, hloop, _, hidxs, _, hpi1, _, _⟩ :=
        bindInClauseLoop_spec n vs ctx hvs
      obtain ⟨ctx2, hrun, hpi⟩ := ih ctx1 hrest
      have hcount : opCount (BindOp.inClause n vs :: rest) = vs.length + opCount rest := by
        simp [opCount, BindOp.elemCount]
      refine ⟨ctx2, ?_, ?_⟩
      · rw [hcount]
        simp only [runBindIndexes, hloop, hrun, hidxs, hpi1]
        have h1 : ctx.paramIndex + vs.length + 1 = ctx.paramIndex + 1 + vs.length := by omega
        rw [h1, List.range'_append_1, Nat.add_comm (opCount rest) vs.length]
      · rw [hcount, hpi, hpi1]
        omega

/-! ### Claim C1 -/

/-- C1: the placeholder text substituted at an interpolation site is
determined solely by the active dialect and the `(param_key, param_index)`
pair, character for character, and is independent of the bound value:
`named` gives `:param_key`, `qmark` gives `?`, `format` gives `%s`,
`numeric` gives `:param_index`, `pyformat` gives `%(param_key)s`, the
dollar-numbered (`asyncpg`) dialect gives `$param_index`, and a
caller-supplied function dialect gives exactly that function applied to
`(param_key, param_index)`. -/
theorem dialect_placeholder_text_table (ctx : RenderContext) (name : String)
    (v : Value) (isIn : Bool) (h : v.isUndefined = false) :
    ∃ ctx2 text, bindParamText ctx name v isIn = Except.ok (ctx2, text) ∧
      (∀ w : Value, w.isUndefined = false →
        ∃ ctxw, bindParamText ctx name w isIn = Except.ok (ctxw, text)) ∧
      (ctx.paramStyle = ParamStyle.named → text = ":" ++ bindKey ctx name isIn) ∧
      (ctx.paramStyle = ParamStyle.qmark → text = "?") ∧
      (ctx.paramStyle = ParamStyle.format → text = "%s") ∧
      (ctx.paramStyle = ParamStyle.numeric → text = ":" ++ Nat.repr (ctx.paramIndex + 1)) ∧
      (ctx.paramStyle = ParamStyle.pyformat →
        text = "%(" ++ bindKey ctx name isIn ++ ")s") ∧
      (ctx.paramStyle = ParamStyle.asyncpg → text = "$" ++ Nat.repr (ctx.paramIndex + 1)) ∧
      (∀ f, ctx.paramStyle = ParamStyle.custom f →
        text = f (bindKey ctx name isIn) (ctx.paramIndex + 1)) := by
  refine ⟨{ ctx with
      params := dictSet ctx.params (bindKey ctx name isIn) v,
      paramIndex := ctx.paramIndex + 1,
      paramIndexes := ddSet ctx.paramIndexes name (ddGet ctx.paramIndexes name + 1) },
    renderPlaceholder ctx.paramStyle (bindKey ctx name isIn) (ctx.paramIndex + 1),
    ?_, ?_, ?_, ?_, ?_, ?_, ?_, ?_, ?_⟩
  · simp [bindParamText, bindParam_ok ctx name v isIn h]
  · intro w hw
    exact ⟨{ ctx with
        params := dictSet ctx.params (bindKey ctx name isIn) w,
        paramIndex := ctx.paramIndex + 1,
        paramIndexes := ddSet ctx.paramIndexes name (ddGet ctx.paramIndexes name + 1) },
      by simp [bindParamText, bindParam_ok ctx name w isIn hw]⟩
  · intro hs; simp [renderPlaceholder, hs]
  · intro hs; simp [renderPlaceholder, hs]
  · intro hs; simp [renderPlaceholder, hs]
  · intro hs; simp [renderPlaceholder, hs]
  · intro hs; simp [renderPlaceholder, hs]
  · intro hs; simp [renderPlaceholder, hs]
  · intro f hs; simp [renderPlaceholder, hs]

/-- C1 witness: a concrete named-dialect bind of a defined value yields the
placeholder `:user__email`. -/
theorem dialect_placeholder_text_table_witness :
    (Value.vStr "x").isUndefined = false ∧
    ∃ ctx2, bindParamText (initialContext ParamStyle.named "") "user.email"
        (Value.vStr "x") false = Except.ok (ctx2, ":user__email") := by
  refine ⟨rfl, ?_⟩
  obtain ⟨ctx2, text, hmain, _, hnamed, _⟩ :=
    dialect_placeholder_text_table (initialContext ParamStyle.named "") "user.email"
      (Value.vStr "x") false rfl
  refine ⟨ctx2, ?_⟩
  rw [hmain, hnamed rfl]
  rfl

/-! ### Claim C2 -/

/-- C2: the parameter collection returned after a render is the
insertion-ordered sequence of the bound values for the positional dialects
(`qmark`, `format`, `numeric`, `asyncpg`), and the `bound_values` mapping
itself for the keyword dialects (`named`, `pyformat`). -/
theorem params_collection_shape (ctx : RenderContext) :
    ((ctx.paramStyle = ParamStyle.qmark ∨ ctx.paramStyle = ParamStyle.format ∨
        ctx.paramStyle = ParamStyle.numeric ∨ ctx.paramStyle = ParamStyle.asyncpg) →
      ctx.paramsResult = ParamsResult.seq (ctx.params.map (fun p => p.2))) ∧
    ((ctx.paramStyle = ParamStyle.named ∨ ctx.paramStyle = ParamStyle.pyformat) →
      ctx.paramsResult = ParamsResult.map ctx.params) := by
  constructor
  · intro h
    rcases h with h | h | h | h <;>
      simp [RenderContext.paramsResult, isPositionalStyle, h]
  · intro h
    rcases h with h | h <;>
      simp [RenderContext.paramsResult, isPositionalStyle, h]

/-- C2 witness: a positional context yields the value sequence in insertion
order; a keyword context yields the key-to-value entries themselves. -/
theorem params_collection_shape_witness :
    ({ paramStyle := ParamStyle.qmark, identifierQuoteChar := "",
       params := [("a", Value.vInt 1), ("b", Value.vInt 2)], paramIndex := 2,
       paramIndexes := [] } : RenderContext).paramsResult =
        ParamsResult.seq [Value.vInt 1, Value.vInt 2] ∧
    ({ paramStyle := ParamStyle.named, identifierQuoteChar := "",
       params := [("a", Value.vInt 1)], paramIndex := 1,
       paramIndexes := [] } : RenderContext).paramsResult =
        ParamsResult.map [("a", Value.vInt 1)] :=
  ⟨(params_collection_shape _).1 (Or.inl rfl),
   (params_collection_shape _).2 (Or.inl rfl)⟩

/-! ### Claim C3 -/

theorem runBinds_error_of_undefined (name : String) :
    ∀ (pre : List (String × Value)) (ctx : RenderContext) (post : List (String × Value)),
      ∃ e, runBinds ctx (pre ++ (name, Value.vUndefined) :: post) = Except.error e := by
  intro pre
  induction pre with
  | nil =>
    intro ctx post
    exact ⟨"Undefined parameter " ++ sq ++ name ++ sq ++ " used in query.",
      by simp [runBinds, bindParamText, bindParam_undefined]⟩
  | cons p rest ih =>
    intro ctx post
    obtain ⟨n, v⟩ := p
    match hstep : bindParamText ctx n v false with
    | Except.error e => exact ⟨e, by simp [runBinds, hstep]⟩
    | Except.ok (ctx2, s) =>
      obtain ⟨e, he⟩ := ih ctx2 post
      exact ⟨e, by simp [runBinds, hstep, he]⟩

theorem bindInClauseLoop_error_of_undefined (name : String) (ws : List Value) :
    ∀ (vs : List Value) (ctx : RenderContext),
      ∃ e, bindInClauseLoop name ctx (vs ++ Value.vUndefined :: ws) = Except.error e := by
  intro vs
  induction vs with
  | nil =>
    intro ctx
    exact ⟨"Undefined parameter " ++ sq ++ name ++ sq ++ " used in query.",
      by simp [bindInClauseLoop, bindParam_undefined]⟩
  | cons v rest ih =>
    intro ctx
    match hstep : ctx.bindParam name v true with
    | Except.error e => exact ⟨e, by simp [bindInClauseLoop, hstep]⟩
    | Except.ok (ctx2, key, idx) =>
      obtain ⟨e, he⟩ := ih ctx2
      exact ⟨e, by simp [bindInClauseLoop, hstep, he]⟩

/-- C3: binding the engine's undefined sentinel raises an unresolved
reference error whose message names the parameter; a render whose operation
list contains an undefined scalar bind (and a list bind any of whose
elements is undefined) aborts as an error, so neither query text nor a
parameter collection is returned. -/
theorem undefined_bind_aborts_render (name : String) (ctx : RenderContext) :
    (∀ isIn : Bool, ctx.bindParam name Value.vUndefined isIn =
        Except.error ("Undefined parameter " ++ sq ++ name ++ sq ++ " used in query.")) ∧
    (∀ (style : ParamStyle) (qc : String) (pre post : List (String × Value)),
      ∃ e, render style qc (pre ++ (name, Value.vUndefined) :: post) = Except.error e) ∧
    (∀ vs ws : List Value,
      ∃ e, bindInClauseFilter ctx (vs ++ Value.vUndefined :: ws) name = Except.error e) := by
  refine ⟨?_, ?_, ?_⟩
  · intro isIn
    exact bindParam_undefined ctx name isIn
  · intro style qc pre post
    obtain ⟨e, he⟩ := runBinds_error_of_undefined name pre (initialContext style qc) post
    exact ⟨e, by simp [render, he]⟩
  · intro vs ws
    obtain ⟨e, he⟩ := bindInClauseLoop_error_of_undefined name ws vs ctx
    exact ⟨e, by simp [bindInClauseFilter, he]⟩

/-! ### Claim C4 -/

/-- C4: within a single render the indices handed back by successive bind
calls (one per scalar bind, one per list element) are exactly `1, 2, 3, …`:
the counter starts at 0 in the fresh context and each `bind_param` call
increments it by exactly one before returning it, so it is never
decremented, reset, or reused. -/
theorem bind_indexes_strictly_increasing (style : ParamStyle) (qc : String)
    (ops : List BindOp) (hall : ops.all BindOp.defined = true) :
    (∃ ctx2, runBindIndexes (initialContext style qc) ops =
        Except.ok (ctx2, List.range' 1 (opCount ops))) ∧
    (∀ (ctx : RenderContext) (name : String) (v : Value) (isIn : Bool),
      v.isUndefined = false →
      ∃ ctx2 key, ctx.bindParam name v isIn = Except.ok (ctx2, key, ctx.paramIndex + 1) ∧
        ctx2.paramIndex = ctx.paramIndex + 1) := by
  constructor
  · obtain ⟨ctx2, hrun, _⟩ := runBindIndexes_spec ops (initialContext style qc) hall
    exact ⟨ctx2, by simpa [initialContext] using hrun⟩
  · intro ctx name v isIn hv
    exact ⟨_, _, bindParam_ok ctx name v isIn hv, rfl⟩

/-- C4 witness: a render with one scalar bind followed by a two-element
list bind hands back the index sequence `[1, 2, 3]`. -/
theorem bind_indexes_strictly_increasing_witness :
    ([BindOp.scalar "a" (Value.vInt 7),
      BindOp.inClause "xs" [Value.vStr "p", Value.vStr "q"]].all BindOp.defined = true) ∧
    (∃ ctx2, runBindIndexes (initialContext ParamStyle.named "")
        [BindOp.scalar "a" (Value.vInt 7),
         BindOp.inClause "xs" [Value.vStr "p", Value.vStr "q"]] =
        Except.ok (ctx2, List.range' 1 3)) := by
  refine ⟨rfl, ?_⟩
  exact (bind_indexes_strictly_increasing ParamStyle.named ""
    [BindOp.scalar "a" (Value.vInt 7),
     BindOp.inClause "xs" [Value.vStr "p", Value.vStr "q"]] rfl).1

/-! ### Claim C6 -/

/-- C6: two scalar binds of the same name in one render both succeed, share
the single key obtained by replacing every `.` in the name with `__`, the
second call overwrites the first entry (last-written value wins, a single
entry for the key remains), and the two calls return two distinct index
values. -/
theorem scalar_rebind_shared_key (ctx : RenderContext) (name : String) (v1 v2 : Value)
    (h1 : v1.isUndefined = false) (h2 : v2.isUndefined = false)
    (hnd : (ctx.params.map Prod.fst).Nodup) :
    ∃ ctx1 ctx2 i1 i2,
      ctx.bindParam name v1 false = Except.ok (ctx1, pyReplaceDot name, i1) ∧
      ctx1.bindParam name v2 false = Except.ok (ctx2, pyReplaceDot name, i2) ∧
      i2 = i1 + 1 ∧ i1 ≠ i2 ∧
      dictGet? ctx2.params (pyReplaceDot name) = some v2 ∧
      (ctx2.params.map Prod.fst).count (pyReplaceDot name) = 1 := by
  have hkey : ∀ c : RenderContext, bindKey c name false = pyReplaceDot name := by
    intro c
    simp [bindKey]
  have hs1 := bindParam_ok ctx name v1 false h1
  rw [hkey ctx] at hs1
  set ctx1 : RenderContext :=
    { ctx with
        params := dictSet ctx.params (pyReplaceDot name) v1,
        paramIndex := ctx.paramIndex + 1,
        paramIndexes := ddSet ctx.paramIndexes name (ddGet ctx.paramIndexes name + 1) }
    with hctx1
  have hs2 := bindParam_ok ctx1 name v2 false h2
  rw [hkey ctx1] at hs2
  have hnd1 : (ctx1.params.map Prod.fst).Nodup :=
    dictSet_keys_nodup ctx.params (pyReplaceDot name) v1 hnd
  refine ⟨ctx1, _, ctx.paramIndex + 1, ctx.paramIndex + 2, hs1, hs2, rfl, by omega, ?_, ?_⟩
  · exact dictGet?_dictSet_self ctx1.params (pyReplaceDot name) v2
  · exact dictSet_key_count_one ctx1.params (pyReplaceDot name) v2 hnd1

/-- C6 witness: rebinding `p.q` in a fresh named-dialect render keeps one
`p__q` entry holding the second value while returning indices 1 and 2. -/
theorem scalar_rebind_shared_key_witness :
    ((Value.vInt 1).isUndefined = false ∧ (Value.vInt 2).isUndefined = false ∧
      (((initialContext ParamStyle.named "").params.map Prod.fst).Nodup)) ∧
    (∃ ctx1 ctx2 i1 i2,
      (initialContext ParamStyle.named "").bindParam "p.q" (Value.vInt 1) false =
        Except.ok (ctx1, pyReplaceDot "p.q", i1) ∧
      ctx1.bindParam "p.q" (Value.vInt 2) false =
        Except.ok (ctx2, pyReplaceDot "p.q", i2) ∧
      i2 = i1 + 1 ∧ i1 ≠ i2 ∧
      dictGet? ctx2.params (pyReplaceDot "p.q") = some (Value.vInt 2) ∧
      (ctx2.params.map Prod.fst).count (pyReplaceDot "p.q") = 1) := by
  refine ⟨⟨rfl, rfl, by simp [initialContext]⟩, ?_⟩
  exact scalar_rebind_shared_key (initialContext ParamStyle.named "") "p.q"
    (Value.vInt 1) (Value.vInt 2) rfl rfl (by simp [initialContext])

/-! ### Claim C10 -/

/-- C10: a value that is already `Markup` (for example the identifier
quoter's output) passes through the scalar bind filter unchanged and leaves
the render context untouched: no `bound_values` entry, no index increment,
no per-name counter change; moreover every successful identifier-filter
result is such a `Markup` value. -/
theorem markup_bind_passthrough (ctx : RenderContext) (s : String) (name : String) :
    (∃ out, bindFilter ctx (Value.vMarkup s) name = Except.ok out ∧
      out.1 = ctx ∧ out.2 = Value.vMarkup s ∧
      out.1.params = ctx.params ∧ out.1.paramIndex = ctx.paramIndex ∧
      out.1.paramIndexes = ctx.paramIndexes) ∧
    (∀ (v : Value) (r : Value), identifierFilter ctx v = Except.ok r →
      ∃ t, r = Value.vMarkup t) := by
  constructor
  · exact ⟨(ctx, Value.vMarkup s), rfl, rfl, rfl, rfl, rfl, rfl⟩
  · intro v r hr
    match v with
    | Value.vStr t =>
      simp [identifierFilter] at hr
      exact ⟨_, hr.symm⟩
    | Value.vMarkup t =>
      simp [identifierFilter] at hr
      exact ⟨_, hr.symm⟩
    | Value.vList items =>
      simp only [identifierFilter] at hr
      match hs : strListOf items with
      | some segs =>
        rw [hs] at hr
        simp at hr
        exact ⟨_, hr.symm⟩
      | none =>
        rw [hs] at hr
        simp at hr
    | Value.vInt n => simp [identifierFilter] at hr
    | Value.vBool b => simp [identifierFilter] at hr
    | Value.vUndefined => simp [identifierFilter] at hr

/-- C10 witness: the quoted identifier `"public"."user"` flows through the
bind filter untouched in a concrete context. -/
theorem markup_bind_passthrough_witness :
    ∃ out, bindFilter (initialContext ParamStyle.named "\"")
        (Value.vMarkup "\"public\".\"user\"") "t" = Except.ok out ∧
      out.1 = initialContext ParamStyle.named "\"" ∧
      out.2 = Value.vMarkup "\"public\".\"user\"" := by
  obtain ⟨out, h1, h2, h3, _⟩ :=
    (markup_bind_passthrough (initialContext ParamStyle.named "\"")
      "\"public\".\"user\"" "t").1
  exact ⟨out, h1, h2, h3⟩

/-! ### Claim C5 -/

/-- C5: binding a list of `N` values under base name `x` (per-name
occurrence counter still at its initial 0, so occurrences start at 1)
produces the `N` pairwise distinct parameter keys `x_1 … x_N` — dots in the
base name replaced by `__` first — regardless of duplicate values, and the
filter returns the literal text `(` placeholder_1 `, ` … placeholder_N `)`
with exactly one placeholder per element. -/
theorem list_bind_distinct_keys (ctx : RenderContext) (name : String) (vs : List Value)
    (h0 : ddGet ctx.paramIndexes name = 0)
    (hall : vs.all (fun v => !v.isUndefined) = true) :
    ∃ ctx2 ps,
      bindInClauseLoop name ctx vs = Except.ok (ctx2, ps) ∧
      ps.map (fun p => p.1) =
        (List.range' 1 vs.length).map
          (fun i => pyReplaceDot name ++ "_" ++ Nat.repr i) ∧
      (ps.map (fun p => p.1)).Nodup ∧
      ps.length = vs.length ∧
      bindInClauseFilter ctx vs name =
        Except.ok (ctx2,
          "(" ++ String.intercalate ", " (ps.map (fun p => p.2.2)) ++ ")") := by
  obtain ⟨ctx2, ps, hloop, hkeys, hidxs, _, _, _, _⟩ :=
    bindInClauseLoop_spec name vs ctx hall
  rw [h0] at hkeys
  refine ⟨ctx2, ps, hloop, hkeys, ?_, ?_, ?_⟩
  · rw [hkeys]
    exact (List.nodup_range' 1 vs.length).map (numbered_key_injective (pyReplaceDot name))
  · have := congrArg List.length hidxs
    simpa using this
  · simp [bindInClauseFilter, hloop]

/-- C5 witness: binding the duplicate list `["a", "a"]` under name `x` in a
fresh qmark render yields two distinct keys and the text `(?, ?)`. -/
theorem list_bind_distinct_keys_witness :
    (ddGet (initialContext ParamStyle.qmark "").paramIndexes "x" = 0 ∧
      [Value.vStr "a", Value.vStr "a"].all (fun v => !v.isUndefined) = true) ∧
    (∃ ctx2 ps,
      bindInClauseLoop "x" (initialContext ParamStyle.qmark "")
          [Value.vStr "a", Value.vStr "a"] = Except.ok (ctx2, ps) ∧
      ps.map (fun p => p.1) =
        (List.range' 1 ([Value.vStr "a", Value.vStr "a"] : List Value).length).map
          (fun i => pyReplaceDot "x" ++ "_" ++ Nat.repr i) ∧
      (ps.map (fun p => p.1)).Nodup ∧
      ps.length = ([Value.vStr "a", Value.vStr "a"] : List Value).length ∧
      bindInClauseFilter (initialContext ParamStyle.qmark "")
          [Value.vStr "a", Value.vStr "a"] "x" =
        Except.ok (ctx2,
          "(" ++ String.intercalate ", " (ps.map (fun p => p.2.2)) ++ ")")) :=
  ⟨⟨rfl, rfl⟩,
    list_bind_distinct_keys (initialContext ParamStyle.qmark "") "x"
      [Value.vStr "a", Value.vStr "a"] rfl rfl⟩

/-! ### Claim C7 -/

theorem splitAtVarEnd_append (expr : List Token) (ve : Token) (rest : List Token)
    (hve : ve.kind = "variable_end")
    (hno : ∀ t ∈ expr, t.kind ≠ "variable_end") :
    splitAtVarEnd (expr ++ ve :: rest) = some (expr, ve, rest) := by
  induction expr with
  | nil => simp [splitAtVarEnd, hve]
  | cons t ts ih =>
    have ht : t.kind ≠ "variable_end" := hno t (by simp)
    have ih2 := ih (fun u hu => hno u (by simp [hu]))
    simp [splitAtVarEnd, ht, ih2]

theorem filterStream_vb_split (vb : Token) (rest : List Token)
    (hvb : vb.kind = "variable_begin") (expr : List Token) (ve : Token)
    (rest2 : List Token) (hsplit : splitAtVarEnd rest = some (expr, ve, rest2)) :
    filterStream (vb :: rest) = rewriteVarExpr (vb :: expr) ve ++ filterStream rest2 := by
  rw [filterStream]
  simp only [hvb, if_true]
  split
  · next hnone =>
      rw [hsplit] at hnone
      exact absurd hnone (by simp)
  · next e2 v2 r2 hsome =>
      rw [hsplit] at hsome
      simp only [Option.some.injEq, Prod.mk.injEq] at hsome
      obtain ⟨ha, hb, hc⟩ := hsome
      subst ha
      subst hb
      subst hc
      rfl

theorem getLastD_irrel (l : List Token) (h : l ≠ []) (x y : Token) :
    l.getLastD x = l.getLastD y := by
  cases l with
  | nil => exact absurd rfl h
  | cons b m =>
    simp only [List.getLastD_cons]

/-- C7: an interpolation site whose last buffered token is a name token in
the exemption set (`bind`, `_bind_in`, `safe`) is emitted by
`filter_stream` exactly as it came in — no token inserted, removed, or
changed at that site. -/
theorem exemption_site_unchanged (vb ve : Token) (expr rest : List Token)
    (hvb : vb.kind = "variable_begin") (hve : ve.kind = "variable_end")
    (hne : expr ≠ [])
    (hnoend : ∀ t ∈ expr, t.kind ≠ "variable_end")
    (hlastname : (expr.getLastD dummyToken).kind = "name")
    (hlastskip : (expr.getLastD dummyToken).value ∈ skipFilters) :
    filterStream (vb :: expr ++ ve :: rest) = vb :: expr ++ ve :: filterStream rest := by
  have hsplit := splitAtVarEnd_append expr ve rest hve hnoend
  have h1 : filterStream (vb :: (expr ++ ve :: rest)) =
      rewriteVarExpr (vb :: expr) ve ++ filterStream rest :=
    filterStream_vb_split vb (expr ++ ve :: rest) hvb expr ve rest hsplit
  have hlast : (vb :: expr).getLastD dummyToken = expr.getLastD dummyToken := by
    rw [List.getLastD_cons]
    exact getLastD_irrel expr hne vb dummyToken
  have h2 : rewriteVarExpr (vb :: expr) ve = (vb :: expr) ++ [ve] := by
    simp only [rewriteVarExpr, hlast]
    rw [if_pos ⟨hlastname, hlastskip⟩]
  rw [List.cons_append, h1, h2]
  simp

/-- C7 witness: the already-wrapped site `vb name(x) pipe name(bind) ve` is
passed through unchanged. -/
theorem exemption_site_unchanged_witness :
    ((⟨1, "variable_begin", "\x7b\x7b"⟩ : Token).kind = "variable_begin" ∧
      (⟨1, "variable_end", "\x7d\x7d"⟩ : Token).kind = "variable_end" ∧
      ([⟨1, "name", "x"⟩, ⟨1, "pipe", "|"⟩, ⟨1, "name", "bind"⟩] : List Token) ≠ [] ∧
      (∀ t ∈ ([⟨1, "name", "x"⟩, ⟨1, "pipe", "|"⟩, ⟨1, "name", "bind"⟩] : List Token),
        t.kind ≠ "variable_end") ∧
      (([⟨1, "name", "x"⟩, ⟨1, "pipe", "|"⟩,
          ⟨1, "name", "bind"⟩] : List Token).getLastD dummyToken).kind = "name" ∧
      (([⟨1, "name", "x"⟩, ⟨1, "pipe", "|"⟩,
          ⟨1, "name", "bind"⟩] : List Token).getLastD dummyToken).value ∈ skipFilters) ∧
    filterStream ((⟨1, "variable_begin", "\x7b\x7b"⟩ : Token) ::
        ([⟨1, "name", "x"⟩, ⟨1, "pipe", "|"⟩, ⟨1, "name", "bind"⟩] : List Token) ++
        (⟨1, "variable_end", "\x7d\x7d"⟩ : Token) :: []) =
      (⟨1, "variable_begin", "\x7b\x7b"⟩ : Token) ::
        ([⟨1, "name", "x"⟩, ⟨1, "pipe", "|"⟩, ⟨1, "name", "bind"⟩] : List Token) ++
        (⟨1, "variable_end", "\x7d\x7d"⟩ : Token) :: filterStream [] :=
  ⟨⟨rfl, rfl, by simp, by decide, rfl, by decide⟩,
    exemption_site_unchanged ⟨1, "variable_begin", "\x7b\x7b"⟩
      ⟨1, "variable_end", "\x7d\x7d"⟩
      [⟨1, "name", "x"⟩, ⟨1, "pipe", "|"⟩, ⟨1, "name", "bind"⟩] []
      rfl rfl (by simp) (by decide) rfl (by decide)⟩

/-! ### Claim C8 -/

theorem extractLoop_foldl (rest : List Token)
    (hnovb : ∀ t ∈ rest, t.kind ≠ "variable_begin") :
    ∀ acc, extractLoop acc rest =
      List.foldl (fun a t => a ++ t.value) acc
        (rest.takeWhile (fun t => t.kind = "name" ∨ t.kind = "dot")) := by
  induction rest with
  | nil => intro acc; simp [extractLoop]
  | cons t ts ih =>
    intro acc
    have ht : t.kind ≠ "variable_begin" := hnovb t (by simp)
    have ih2 := ih (fun u hu => hnovb u (by simp [hu]))
    by_cases hn : t.kind = "name"
    · simp [extractLoop, ht, hn, List.takeWhile_cons, ih2]
    · by_cases hd : t.kind = "dot"
      · simp [extractLoop, ht, hn, hd, List.takeWhile_cons, ih2]
      · simp [extractLoop, ht, hn, hd, List.takeWhile_cons]

/-- C8 counterexample: the buffered expression `variable_begin dot` contains
no name token at all, yet the derived parameter name is `"."`, not the
claimed fallback `"bind_0"` — the code falls back only when the
concatenated string is empty. -/
theorem extract_param_name_fallback_counterexample :
    (∀ t ∈ ([⟨1, "variable_begin", "\x7b\x7b"⟩, ⟨1, "dot", "."⟩] : List Token),
      t.kind ≠ "name") ∧
    extractParamName [⟨1, "variable_begin", "\x7b\x7b"⟩, ⟨1, "dot", "."⟩] = "." ∧
    extractParamName [⟨1, "variable_begin", "\x7b\x7b"⟩, ⟨1, "dot", "."⟩] ≠ "bind_0" := by
  refine ⟨by decide, by decide, by decide⟩

/-- C8 amended: for a rewritten site the derived default parameter name is
the concatenation of the values of the consecutive name and dot tokens from
the start of the buffered expression up to the first token of any other
kind, and it falls back to `"bind_0"` exactly when that concatenation is
empty (no leading name or dot token at all). -/
theorem extract_param_name_leading_run (vb : Token) (rest : List Token)
    (hvb : vb.kind = "variable_begin")
    (hnovb : ∀ t ∈ rest, t.kind ≠ "variable_begin") :
    extractParamName (vb :: rest) =
      (if leadRun rest = "" then "bind_0" else leadRun rest) := by
  have h1 : extractLoop "" (vb :: rest) = extractLoop "" rest := by
    simp [extractLoop, hvb]
  simp only [extractParamName, h1, extractLoop_foldl rest hnovb "", leadRun]

/-- C8 witness: the dotted path `user.email` derives the literal parameter
name `"user.email"`. -/
theorem extract_param_name_leading_run_witness :
    ((⟨1, "variable_begin", "\x7b\x7b"⟩ : Token).kind = "variable_begin" ∧
      (∀ t ∈ ([⟨1, "name", "user"⟩, ⟨1, "dot", "."⟩, ⟨1, "name", "email"⟩] : List Token),
        t.kind ≠ "variable_begin")) ∧
    extractParamName ((⟨1, "variable_begin", "\x7b\x7b"⟩ : Token) ::
        [⟨1, "name", "user"⟩, ⟨1, "dot", "."⟩, ⟨1, "name", "email"⟩]) =
      (if leadRun [⟨1, "name", "user"⟩, ⟨1, "dot", "."⟩, ⟨1, "name", "email"⟩] = ""
        then "bind_0"
        else leadRun [⟨1, "name", "user"⟩, ⟨1, "dot", "."⟩, ⟨1, "name", "email"⟩]) ∧
    extractParamName ((⟨1, "variable_begin", "\x7b\x7b"⟩ : Token) ::
        [⟨1, "name", "user"⟩, ⟨1, "dot", "."⟩, ⟨1, "name", "email"⟩]) = "user.email" :=
  ⟨⟨rfl, by decide⟩,
    extract_param_name_leading_run ⟨1, "variable_begin", "\x7b\x7b"⟩
      [⟨1, "name", "user"⟩, ⟨1, "dot", "."⟩, ⟨1, "name", "email"⟩] rfl (by decide),
    by decide⟩

/-! ### Claim C9 -/

theorem singleton_ne_empty (c : Char) : String.singleton c ≠ "" := by
  intro h
  have hc : (String.singleton c).data = [c] := rfl
  rw [h] at hc
  cases hc

theorem pyReplaceAux_singleton (c : Char) :
    ∀ l : List Char, pyReplaceAux [c] [c, c] l =
      l.foldr (fun ch acc => if ch = c then c :: c :: acc else ch :: acc) [] := by
  intro l
  induction l with
  | nil => simp [pyReplaceAux]
  | cons ch rest ih =>
    rw [pyReplaceAux]
    by_cases hc : ch = c
    · subst hc
      have hpre : [ch].isPrefixOf (ch :: rest) = true := by
        simp [List.isPrefixOf]
      rw [if_pos ⟨by simp, hpre⟩]
      simp [ih]
    · have hpre : ([c].isPrefixOf (ch :: rest)) = false := by
        simp [List.isPrefixOf]
        exact fun h => hc h.symm
      rw [if_neg (by simp [hpre])]
      simp [ih, hc]

theorem quoteAndEscape_singleton (c : Char) (item : String) :
    quoteAndEscape (String.singleton c) item =
      String.mk ([c] ++ item.data.foldr
        (fun ch acc => if ch = c then c :: c :: acc else ch :: acc) [] ++ [c]) := by
  apply String.ext
  have hne : ¬ String.singleton c = "" := singleton_ne_empty c
  simp only [quoteAndEscape, pyReplace, hne, if_false, String.data_append]
  simp only [show (String.singleton c).data = [c] from rfl]
  rw [show ([c] ++ [c] : List Char) = [c, c] from rfl,
    pyReplaceAux_singleton c item.data]

theorem quoteAndEscape_empty (s : String) : quoteAndEscape "" s = s := by
  simp [quoteAndEscape, pyReplace]

theorem strListOf_map_vStr : ∀ segs : List String,
    strListOf (segs.map Value.vStr) = some segs := by
  intro segs
  induction segs with
  | nil => rfl
  | cons s ss ih => simp [strListOf, ih]

theorem identifierFilter_map_vStr (ctx : RenderContext) (segs : List String) :
    identifierFilter ctx (Value.vList (segs.map Value.vStr)) =
      Except.ok (Value.vMarkup (String.intercalate "."
        (segs.map (quoteAndEscape ctx.identifierQuoteChar)))) := by
  simp [identifierFilter, strListOf_map_vStr]

/-- C9: the identifier quoter treats a single string as a one-element
sequence; wraps each segment in the configured quote character, doubling
every embedded occurrence of it; joins the quoted segments with `.`; with
the empty quote character passes segments through verbatim (still
dot-joined); errors on input that is neither a string nor a sequence of
strings; and on `["public", "user"]` with quote char `"` yields exactly
`"public"."user"` (with an embedded `"` doubled). -/
theorem identifier_quoter_spec :
    (∀ (ctx : RenderContext) (s : String),
      identifierFilter ctx (Value.vStr s) =
        identifierFilter ctx (Value.vList [Value.vStr s])) ∧
    (∀ (ctx : RenderContext) (segs : List String),
      identifierFilter ctx (Value.vList (segs.map Value.vStr)) =
        Except.ok (Value.vMarkup (String.intercalate "."
          (segs.map (quoteAndEscape ctx.identifierQuoteChar))))) ∧
    (∀ (c : Char) (item : String),
      quoteAndEscape (String.singleton c) item =
        String.mk ([c] ++ item.data.foldr
          (fun ch acc => if ch = c then c :: c :: acc else ch :: acc) [] ++ [c])) ∧
    (∀ (ctx : RenderContext) (segs : List String),
      identifierFilter { ctx with identifierQuoteChar := "" }
          (Value.vList (segs.map Value.vStr)) =
        Except.ok (Value.vMarkup (String.intercalate "." segs))) ∧
    (∀ (ctx : RenderContext) (n : Int),
      identifierFilter ctx (Value.vInt n) =
        Except.error "identifier filter expects a string or an Iterable") ∧
    (∀ (ctx : RenderContext) (n : Int), ∃ e,
      identifierFilter ctx (Value.vList [Value.vInt n]) = Except.error e) ∧
    (identifierFilter (initialContext ParamStyle.named "\"")
        (Value.vList [Value.vStr "public", Value.vStr "user"]) =
      Except.ok (Value.vMarkup "\"public\".\"user\"")) ∧
    (identifierFilter (initialContext ParamStyle.named "\"") (Value.vStr "a\"b") =
      Except.ok (Value.vMarkup "\"a\"\"b\"")) := by
  refine ⟨?_, identifierFilter_map_vStr, quoteAndEscape_singleton, ?_, ?_, ?_, ?_, ?_⟩
  · intro ctx s
    rfl
  · intro ctx segs
    rw [identifierFilter_map_vStr]
    have hid : quoteAndEscape "" = id := funext quoteAndEscape_empty
    show Except.ok (Value.vMarkup (String.intercalate "."
      (segs.map (quoteAndEscape "")))) = _
    rw [hid, List.map_id]
  · intro ctx n
    rfl
  · intro ctx n
    exact ⟨"str expected as identifier segment", rfl⟩
  · rw [show (Value.vList [Value.vStr "public", Value.vStr "user"]) =
        Value.vList ((["public", "user"] : List String).map Value.vStr) from rfl,
      identifierFilter_map_vStr]
    rw [show (initialContext ParamStyle.named "\"").identifierQuoteChar =
      String.singleton (Char.ofNat 34) from rfl]
    rw [List.map_cons, List.map_cons, List.map_nil,
      quoteAndEscape_singleton, quoteAndEscape_singleton]
    rfl
  · show Except.ok (Value.vMarkup
        (quoteAndEscape (initialContext ParamStyle.named "\"").identifierQuoteChar
          "a\"b")) = _
    rw [show (initialContext ParamStyle.named "\"").identifierQuoteChar =
      String.singleton (Char.ofNat 34) from rfl]
    rw [quoteAndEscape_singleton]
    rfl

end Jinja2SQL
